import Mathlib

/-!
Verification of the `Collection` class of AxonCore
(`src/Utility/Collection.js`), a keyed container built on top of a
JavaScript `Map` with an optional run-time type constraint.

The embedding models JavaScript values by the inductive `JSVal`, with
JavaScript truthiness made explicit by `truthy`, and models the inherited
`Map` store by an insertion-ordered association list with unique keys
(`mapGet`, `mapSet`, `mapDelete`, `mapHas` mirror `Map.prototype.get`,
`set`, `delete`, `has`).  Class constructors are identified by their name
(a `String`); `instOf v c` models `v instanceof c`, where a `vObj` carries
the list of class names on its prototype chain and no primitive is an
instance of anything.  Methods that can throw return `Except String`.
-/

set_option autoImplicit false

namespace AxonCore

/-- A JavaScript value: `null`, `undefined`, booleans, numbers (modelled as
integers; NaN is not needed by any claim), strings, and objects.  An object
carries the class names of its prototype chain, which is all `instanceof`
inspects here. -/
inductive JSVal where
  | vNull
  | vUndefined
  | vBool (b : Bool)
  | vNum (n : Int)
  | vStr (s : String)
  | vObj (classes : List String)
  deriving DecidableEq, Repr

/-- JavaScript truthiness: `null`, `undefined`, `false`, `0`, and the empty
string are falsy; every object is truthy. -/
def truthy : JSVal → Bool
  | .vNull => false
  | .vUndefined => false
  | .vBool b => b
  | .vNum n => n != 0
  | .vStr s => s != ""
  | .vObj _ => true

/-- `v instanceof c` for a class named `c`: true exactly when `v` is an
object whose prototype chain contains `c`. -/
def instOf (v : JSVal) (c : String) : Bool :=
  match v with
  | .vObj classes => classes.contains c
  | _ => false

/-- `Map.prototype.get`: the value stored under `k`, or `undefined`. -/
def mapGet (l : List (JSVal × JSVal)) (k : JSVal) : JSVal :=
  match l with
  | [] => .vUndefined
  | p :: rest => if p.1 = k then p.2 else mapGet rest k

/-- `Map.prototype.has`. -/
def mapHas (l : List (JSVal × JSVal)) (k : JSVal) : Bool :=
  match l with
  | [] => false
  | p :: rest => if p.1 = k then true else mapHas rest k

/-- `Map.prototype.set`: overwrite in place if the key is present
(keeping its position in iteration order), otherwise append at the end. -/
def mapSet (l : List (JSVal × JSVal)) (k v : JSVal) : List (JSVal × JSVal) :=
  match l with
  | [] => [(k, v)]
  | p :: rest => if p.1 = k then (k, v) :: rest else p :: mapSet rest k v

/-- `Map.prototype.delete`: remove the (unique) entry with key `k`. -/
def mapDelete (l : List (JSVal × JSVal)) (k : JSVal) : List (JSVal × JSVal) :=
  match l with
  | [] => []
  | p :: rest => if p.1 = k then rest else p :: mapDelete rest k

/-- The state of a `Collection`: the optional type constraint fixed by the
constructor, and the inherited `Map` store as an insertion-ordered
association list. -/
structure Collection where
  baseObject : Option String
  store : List (JSVal × JSVal)
  deriving DecidableEq, Repr

namespace Collection

/-- `new Collection(baseObject)`: empty store;
`this.baseObject = baseObject ? baseObject : null` records the class when
one is passed (a class is truthy) and `null` otherwise. -/
def mkNew (baseObject : Option String) : Collection :=
  { baseObject := baseObject, store := [] }

/-- A real `Map` never holds two entries with the same key; states of the
association list satisfying this are the well-formed ones. -/
def WF (c : Collection) : Prop :=
  (c.store.map Prod.fst).Nodup

instance (c : Collection) : Decidable c.WF := by
  unfold WF; infer_instance

/-- `this.get(key)` (inherited from `Map`). -/
def get (c : Collection) (k : JSVal) : JSVal :=
  mapGet c.store k

/-- `this.has(key)` (inherited from `Map`). -/
def has (c : Collection) (k : JSVal) : Bool :=
  mapHas c.store k

/-- `this.size` (inherited from `Map`). -/
def size (c : Collection) : Nat :=
  c.store.length

/-- The sequence produced by `this.values()`, in iteration order. -/
def valuesList (c : Collection) : List JSVal :=
  c.store.map Prod.snd

/-- The operand of a JavaScript spread `[...e]`: either a plain function
object (which has no `Symbol.iterator`, so spreading it throws a
`TypeError`) or an iterator over a list of values. -/
inductive SpreadOperand where
  | functionObject (name : String)
  | iteratorOf (items : List JSVal)

/-- Evaluate a spread `[...e]`: an iterator yields its items; a function
object is not iterable and the spread throws. -/
def spreadToArray : SpreadOperand → Except String (List JSVal)
  | .functionObject nm => .error ("TypeError: this." ++ nm ++ " is not iterable")
  | .iteratorOf items => .ok items

/-- The expression `this.values` (no call parentheses): property lookup
finds the inherited method `Map.prototype.values` itself, a function
object, whatever the collection contains. -/
def valuesProp (_c : Collection) : SpreadOperand :=
  .functionObject "values"

/-- `toArray() { return [...this.values]; }` — the source spreads the
method reference `this.values`, not the iterator `this.values()`. -/
def toArray (c : Collection) : Except String (List JSVal) :=
  spreadToArray c.valuesProp

/-- The guard `this.baseObject && !(value instanceof this.baseObject)` of
`add`: `null` is falsy, a class is truthy. -/
def failsConstraint (c : Collection) (v : JSVal) : Bool :=
  match c.baseObject with
  | some b => !(instOf v b)
  | none => false

/-- `add(key, value, replace)`: returns the method result together with
the state of `this` afterwards.  Mirrors the source line by line:
the existing value is returned when it is truthy and `replace` is not set;
a constraint failure returns `null` without mutating; otherwise
`this.set(key, value)` stores and returns `value`. -/
def add (c : Collection) (k v : JSVal) (replace : Bool) : JSVal × Collection :=
  let existing := c.get k
  if truthy existing && !replace then
    (existing, c)
  else if c.failsConstraint v then
    (.vNull, c)
  else
    (v, { c with store := mapSet c.store k v })

/-- `update(key, value) { return this.add(key, value, true); }`. -/
def update (c : Collection) (k v : JSVal) : JSVal × Collection :=
  c.add k v true

/-- `remove(key)`: `const item = this.get(key); if (!item) return null;
this.delete(key); return item;` — note the truthiness test on `item`. -/
def remove (c : Collection) (k : JSVal) : JSVal × Collection :=
  let item := c.get k
  if !(truthy item) then
    (.vNull, c)
  else
    (item, { c with store := mapDelete c.store k })

/-- `find(func)`: first value (in iteration order) whose image under
`func` is truthy, else `undefined`. -/
def find (c : Collection) (f : JSVal → JSVal) : JSVal :=
  match c.valuesList.find? (fun v => truthy (f v)) with
  | some v => v
  | none => .vUndefined

/-- `filter(func)`: all values whose image under `func` is truthy, in
iteration order. -/
def filter (c : Collection) (f : JSVal → JSVal) : List JSVal :=
  c.valuesList.filter (fun v => truthy (f v))

/-- `map(func)`: the image of every value, in iteration order. -/
def map (c : Collection) (f : JSVal → JSVal) : List JSVal :=
  c.valuesList.map f

/-- `some(func)`: true iff the loop over `this.values()` hits a value with
truthy image. -/
def some (c : Collection) (f : JSVal → JSVal) : Bool :=
  c.valuesList.any (fun v => truthy (f v))

/-- `every(func)`: true iff no value has a falsy image. -/
def every (c : Collection) (f : JSVal → JSVal) : Bool :=
  c.valuesList.all (fun v => truthy (f v))

/-- `random()`, with the result of `Math.floor(Math.random() * this.size)`
made an explicit argument `i`: `undefined` on an empty collection,
otherwise `Array.from(this.values())[i]` (array indexing out of range
yields `undefined`). -/
def random (c : Collection) (i : Nat) : JSVal :=
  if c.size = 0 then .vUndefined
  else c.valuesList.getD i .vUndefined

/-- `toString()` renders the template that dereferences
`this.baseObject.name` unconditionally; reading `name` off `null` throws. -/
def toString (c : Collection) : Except String String :=
  match c.baseObject with
  | Option.some b => .ok ("[Collection<" ++ b ++ ">]")
  | Option.none => .error "TypeError: Cannot read properties of null (reading name)"

end Collection

/-- The collection states reachable from the constructor through the
public mutating operations. -/
inductive Reachable : Collection → Prop where
  | init (b : Option String) : Reachable (Collection.mkNew b)
  | addStep (c : Collection) (k v : JSVal) (r : Bool) :
      Reachable c → Reachable (c.add k v r).2
  | updateStep (c : Collection) (k v : JSVal) :
      Reachable c → Reachable (c.update k v).2
  | removeStep (c : Collection) (k : JSVal) :
      Reachable c → Reachable (c.remove k).2

/-! ### Lemmas about the underlying ordered map -/

theorem mapHas_iff_mem_keys (l : List (JSVal × JSVal)) (k : JSVal) :
    mapHas l k = true ↔ k ∈ l.map Prod.fst := by
  induction l with
  | nil => simp [mapHas]
  | cons p rest ih =>
    simp only [mapHas, List.map_cons, List.mem_cons]
    by_cases h : p.1 = k
    · simp [h]
    · simp only [if_neg h, ih]
      constructor
      · exact fun hm => Or.inr hm
      · rintro (h1 | h1)
        · exact absurd h1.symm h
        · exact h1

theorem mapHas_of_truthy_mapGet (l : List (JSVal × JSVal)) (k : JSVal)
    (h : truthy (mapGet l k) = true) : mapHas l k = true := by
  induction l with
  | nil => simp [mapGet, truthy] at h
  | cons p rest ih =>
    by_cases hk : p.1 = k
    · simp [mapHas, hk]
    · simp only [mapGet, if_neg hk] at h
      simp [mapHas, hk, ih h]

theorem length_mapDelete_of_mapHas (l : List (JSVal × JSVal)) (k : JSVal)
    (h : mapHas l k = true) : (mapDelete l k).length + 1 = l.length := by
  induction l with
  | nil => simp [mapHas] at h
  | cons p rest ih =>
    by_cases hk : p.1 = k
    · simp [mapDelete, hk]
    · simp only [mapHas, if_neg hk] at h
      simp [mapDelete, hk, ih h]

theorem mapHas_mapDelete_of_nodup (l : List (JSVal × JSVal)) (k : JSVal)
    (h : (l.map Prod.fst).Nodup) : mapHas (mapDelete l k) k = false := by
  induction l with
  | nil => simp [mapDelete, mapHas]
  | cons p rest ih =>
    simp only [List.map_cons, List.nodup_cons] at h
    by_cases hk : p.1 = k
    · subst hk
      simp only [mapDelete, if_pos rfl]
      apply Bool.eq_false_iff.mpr
      intro hmem
      exact h.1 ((mapHas_iff_mem_keys rest p.1).mp hmem)
    · simp [mapDelete, hk, mapHas, ih h.2]

theorem mem_snd_mapSet (l : List (JSVal × JSVal)) (k w v : JSVal)
    (h : v ∈ (mapSet l k w).map Prod.snd) : v ∈ l.map Prod.snd ∨ v = w := by
  induction l with
  | nil =>
    simp only [mapSet, List.map_cons, List.map_nil, List.mem_singleton] at h
    exact Or.inr h
  | cons p rest ih =>
    by_cases hk : p.1 = k
    · simp only [mapSet, if_pos hk, List.map_cons, List.mem_cons] at h
      rcases h with h | h
      · exact Or.inr h
      · exact Or.inl (List.mem_cons.mpr (Or.inr h))
    · simp only [mapSet, if_neg hk, List.map_cons, List.mem_cons] at h
      rcases h with h | h
      · exact Or.inl (List.mem_cons.mpr (Or.inl h))
      · rcases ih h with h2 | h2
        · exact Or.inl (List.mem_cons.mpr (Or.inr h2))
        · exact Or.inr h2

theorem mem_snd_mapDelete (l : List (JSVal × JSVal)) (k v : JSVal)
    (h : v ∈ (mapDelete l k).map Prod.snd) : v ∈ l.map Prod.snd := by
  induction l with
  | nil => simp [mapDelete] at h
  | cons p rest ih =>
    by_cases hk : p.1 = k
    · simp only [mapDelete, if_pos hk] at h
      exact List.mem_cons.mpr (Or.inr h)
    · simp only [mapDelete, if_neg hk, List.map_cons, List.mem_cons] at h
      rcases h with h | h
      · exact List.mem_cons.mpr (Or.inl h)
      · exact List.mem_cons.mpr (Or.inr (ih h))

/-! ### Lemmas about the Collection operations -/

theorem add_baseObject (c : Collection) (k v : JSVal) (r : Bool) :
    (c.add k v r).2.baseObject = c.baseObject := by
  simp only [Collection.add]
  split
  · rfl
  · split <;> rfl

theorem update_baseObject (c : Collection) (k v : JSVal) :
    (c.update k v).2.baseObject = c.baseObject :=
  add_baseObject c k v true

theorem remove_baseObject (c : Collection) (k : JSVal) :
    (c.remove k).2.baseObject = c.baseObject := by
  simp only [Collection.remove]
  split <;> rfl

/-- The state after `add` is either unchanged, or is the result of a
`set` that the constraint check let through. -/
theorem add_snd_cases (c : Collection) (k v : JSVal) (r : Bool) :
    (c.add k v r).2 = c ∨
      ((c.add k v r).2.store = mapSet c.store k v ∧ c.failsConstraint v = false) := by
  simp only [Collection.add]
  split
  · exact Or.inl rfl
  · split
    · exact Or.inl rfl
    · rename_i hc
      exact Or.inr ⟨rfl, by simpa using hc⟩

/-- Values reachable through the public mutators satisfy the configured
type constraint. -/
theorem reachable_constraint_aux (c : Collection) (hr : Reachable c) :
    ∀ b : String, c.baseObject = Option.some b →
      ∀ v ∈ c.valuesList, instOf v b = true := by
  induction hr with
  | init b0 =>
    intro b _ v hv
    simp [Collection.mkNew, Collection.valuesList] at hv
  | addStep c0 k w r h0 ih =>
    intro b hb v hv
    rw [add_baseObject] at hb
    rcases add_snd_cases c0 k w r with hcase | ⟨hst, hok⟩
    · rw [hcase] at hv
      exact ih b hb v hv
    · simp only [Collection.valuesList, hst] at hv
      rcases mem_snd_mapSet c0.store k w v hv with h | h
      · exact ih b hb v h
      · subst h
        simp only [Collection.failsConstraint, hb, Bool.not_eq_false] at hok
        simpa using hok
  | updateStep c0 k w h0 ih =>
    intro b hb v hv
    rw [update_baseObject] at hb
    rcases add_snd_cases c0 k w true with hcase | ⟨hst, hok⟩
    · rw [show (c0.update k w).2 = (c0.add k w true).2 from rfl, hcase] at hv
      exact ih b hb v hv
    · simp only [Collection.update, Collection.valuesList, hst] at hv
      rcases mem_snd_mapSet c0.store k w v hv with h | h
      · exact ih b hb v h
      · subst h
        simp only [Collection.failsConstraint, hb, Bool.not_eq_false] at hok
        simpa using hok
  | removeStep c0 k h0 ih =>
    intro b hb v hv
    rw [remove_baseObject] at hb
    simp only [Collection.remove, Collection.valuesList] at hv
    split at hv
    · exact ih b hb v hv
    · exact ih b hb v (mem_snd_mapDelete c0.store k v hv)

/-! ### Claims -/

/-- Claim C1: the spec says `toArray()` returns a snapshot of the current
values with length `size`; the code spreads the method reference
`this.values` (missing the call parentheses), which is not iterable, so
`toArray()` throws a `TypeError` on every collection instead. -/
theorem toArray_always_throws :
    ∀ c : Collection,
      c.toArray = Except.error "TypeError: this.values is not iterable" := by
  intro c
  show Except.error ("TypeError: this." ++ "values" ++ " is not iterable") = _
  have h : "TypeError: this." ++ "values" ++ " is not iterable" =
      "TypeError: this.values is not iterable" := by decide
  rw [h]

/-- Claim C2, counterexample: with no type constraint and the falsy value
`0` stored under key `"a"`, the key is present, yet
`add("a", 1, replace=false)` returns `1` (not the stored `0`) and
overwrites the entry, because the source tests the truthiness of the
existing value rather than key presence. -/
theorem add_noReplace_counterexample :
    (⟨Option.none, [(JSVal.vStr "a", JSVal.vNum 0)]⟩ : Collection).has
        (JSVal.vStr "a") = true ∧
    (⟨Option.none, [(JSVal.vStr "a", JSVal.vNum 0)]⟩ : Collection).get
        (JSVal.vStr "a") = JSVal.vNum 0 ∧
    ((⟨Option.none, [(JSVal.vStr "a", JSVal.vNum 0)]⟩ : Collection).add
        (JSVal.vStr "a") (JSVal.vNum 1) false).1 ≠ JSVal.vNum 0 ∧
    ((⟨Option.none, [(JSVal.vStr "a", JSVal.vNum 0)]⟩ : Collection).add
        (JSVal.vStr "a") (JSVal.vNum 1) false).2.get (JSVal.vStr "a") ≠
      JSVal.vNum 0 := by
  decide

/-- Claim C2 (amended): if key `K` is present with a truthy stored value
`V1`, then `add(K, V2, replace=false)` returns `V1` and leaves the
collection completely unchanged (hence `get(K) == V1` and `size`
unchanged), for every `V2`. -/
theorem add_existing_truthy_noReplace (c : Collection) (k v1 v2 : JSVal)
    (h1 : c.get k = v1) (h2 : truthy v1 = true) :
    (c.add k v2 false).1 = v1 ∧ (c.add k v2 false).2 = c := by
  subst h1
  simp [Collection.add, h2]

/-- Witness for the amended C2 at a concrete collection. -/
theorem add_existing_truthy_noReplace_witness :
    (⟨Option.none, [(JSVal.vStr "a", JSVal.vNum 7)]⟩ : Collection).get
        (JSVal.vStr "a") = JSVal.vNum 7 ∧
    truthy (JSVal.vNum 7) = true ∧
    ((⟨Option.none, [(JSVal.vStr "a", JSVal.vNum 7)]⟩ : Collection).add
        (JSVal.vStr "a") (JSVal.vNum 9) false).1 = JSVal.vNum 7 ∧
    ((⟨Option.none, [(JSVal.vStr "a", JSVal.vNum 7)]⟩ : Collection).add
        (JSVal.vStr "a") (JSVal.vNum 9) false).2 =
      (⟨Option.none, [(JSVal.vStr "a", JSVal.vNum 7)]⟩ : Collection) :=
  ⟨by decide, by decide,
    (add_existing_truthy_noReplace
      (⟨Option.none, [(JSVal.vStr "a", JSVal.vNum 7)]⟩ : Collection)
      (JSVal.vStr "a") (JSVal.vNum 7) (JSVal.vNum 9) (by decide) (by decide)).1,
    (add_existing_truthy_noReplace
      (⟨Option.none, [(JSVal.vStr "a", JSVal.vNum 7)]⟩ : Collection)
      (JSVal.vStr "a") (JSVal.vNum 7) (JSVal.vNum 9) (by decide) (by decide)).2⟩

/-- Claim C3, counterexample: with the falsy value `0` stored under the
present key `"a"`, `remove("a")` returns `null` — not the stored value —
and deletes nothing, because the source tests the truthiness of the
looked-up value. -/
theorem remove_counterexample :
    (⟨Option.none, [(JSVal.vStr "a", JSVal.vNum 0)]⟩ : Collection).has
        (JSVal.vStr "a") = true ∧
    ((⟨Option.none, [(JSVal.vStr "a", JSVal.vNum 0)]⟩ : Collection).remove
        (JSVal.vStr "a")).1 = JSVal.vNull ∧
    ((⟨Option.none, [(JSVal.vStr "a", JSVal.vNum 0)]⟩ : Collection).remove
        (JSVal.vStr "a")).1 ≠
      (⟨Option.none, [(JSVal.vStr "a", JSVal.vNum 0)]⟩ : Collection).get
        (JSVal.vStr "a") ∧
    ((⟨Option.none, [(JSVal.vStr "a", JSVal.vNum 0)]⟩ : Collection).remove
        (JSVal.vStr "a")).2.has (JSVal.vStr "a") = true := by
  decide

/-- Claim C3 (amended): `remove(K)` returns `null` and leaves the
collection unchanged whenever the looked-up value is falsy (in particular
whenever `K` is absent); when the stored value is truthy it returns that
value, deletes the entry, decreases `size` by exactly one, and afterwards
`has(K)` is false. -/
theorem remove_spec (c : Collection) (k : JSVal) :
    (truthy (c.get k) = false → c.remove k = (JSVal.vNull, c)) ∧
    (c.WF → truthy (c.get k) = true →
      (c.remove k).1 = c.get k ∧
      (c.remove k).2.size + 1 = c.size ∧
      (c.remove k).2.has k = false) := by
  constructor
  · intro h
    simp [Collection.remove, h]
  · intro hwf h
    refine ⟨by simp [Collection.remove, h], ?_, ?_⟩
    · simp only [Collection.remove, h, Bool.not_true, Bool.false_eq_true,
        if_false, Collection.size]
      exact length_mapDelete_of_mapHas c.store k
        (mapHas_of_truthy_mapGet c.store k h)
    · simp only [Collection.remove, h, Bool.not_true, Bool.false_eq_true,
        if_false, Collection.has]
      exact mapHas_mapDelete_of_nodup c.store k hwf

/-- Witness for the amended C3 at a concrete collection: an absent key on
the falsy branch, a present truthy key on the deleting branch. -/
theorem remove_spec_witness :
    truthy ((⟨Option.none, [(JSVal.vStr "a", JSVal.vNum 7)]⟩ : Collection).get
        (JSVal.vStr "b")) = false ∧
    (⟨Option.none, [(JSVal.vStr "a", JSVal.vNum 7)]⟩ : Collection).remove
        (JSVal.vStr "b") =
      (JSVal.vNull, (⟨Option.none, [(JSVal.vStr "a", JSVal.vNum 7)]⟩ : Collection)) ∧
    (⟨Option.none, [(JSVal.vStr "a", JSVal.vNum 7)]⟩ : Collection).WF ∧
    truthy ((⟨Option.none, [(JSVal.vStr "a", JSVal.vNum 7)]⟩ : Collection).get
        (JSVal.vStr "a")) = true ∧
    ((⟨Option.none, [(JSVal.vStr "a", JSVal.vNum 7)]⟩ : Collection).remove
        (JSVal.vStr "a")).1 =
      (⟨Option.none, [(JSVal.vStr "a", JSVal.vNum 7)]⟩ : Collection).get
        (JSVal.vStr "a") ∧
    ((⟨Option.none, [(JSVal.vStr "a", JSVal.vNum 7)]⟩ : Collection).remove
        (JSVal.vStr "a")).2.size + 1 =
      (⟨Option.none, [(JSVal.vStr "a", JSVal.vNum 7)]⟩ : Collection).size ∧
    ((⟨Option.none, [(JSVal.vStr "a", JSVal.vNum 7)]⟩ : Collection).remove
        (JSVal.vStr "a")).2.has (JSVal.vStr "a") = false :=
  ⟨by decide,
    (remove_spec (⟨Option.none, [(JSVal.vStr "a", JSVal.vNum 7)]⟩ : Collection)
      (JSVal.vStr "b")).1 (by decide),
    by decide, by decide,
    ((remove_spec (⟨Option.none, [(JSVal.vStr "a", JSVal.vNum 7)]⟩ : Collection)
      (JSVal.vStr "a")).2 (by decide) (by decide)).1,
    ((remove_spec (⟨Option.none, [(JSVal.vStr "a", JSVal.vNum 7)]⟩ : Collection)
      (JSVal.vStr "a")).2 (by decide) (by decide)).2.1,
    ((remove_spec (⟨Option.none, [(JSVal.vStr "a", JSVal.vNum 7)]⟩ : Collection)
      (JSVal.vStr "a")).2 (by decide) (by decide)).2.2⟩

/-- Claim C4, counterexample: with `baseObject = "C"` and the key `"a"`
holding a truthy instance of `C`, adding the non-instance `5` under `"a"`
with `replace = false` returns the existing stored object, not the absent
marker `null`: the existing-key check precedes the constraint check. -/
theorem add_reject_counterexample :
    (⟨Option.some "C", [(JSVal.vStr "a", JSVal.vObj ["C"])]⟩ : Collection).baseObject =
      Option.some "C" ∧
    instOf (JSVal.vNum 5) "C" = false ∧
    ((⟨Option.some "C", [(JSVal.vStr "a", JSVal.vObj ["C"])]⟩ : Collection).add
        (JSVal.vStr "a") (JSVal.vNum 5) false).1 ≠ JSVal.vNull := by
  decide

/-- Claim C4 (amended): if `baseObject` is set and `V` is not an instance
of it, `add(K, V, replace)` never mutates the store and raises no error;
it returns the absent marker `null`, except when `K` is present with a
truthy stored value and `replace` is false, in which case it returns that
stored value (the existing-key check fires first). -/
theorem add_nonInstance_spec (c : Collection) (k v : JSVal) (r : Bool)
    (b : String) (hb : c.baseObject = Option.some b)
    (hv : instOf v b = false) :
    (c.add k v r).2 = c ∧
    (c.add k v r).1 =
      (if truthy (c.get k) && !r then c.get k else JSVal.vNull) := by
  have hfc : c.failsConstraint v = true := by
    simp [Collection.failsConstraint, hb, hv]
  by_cases hex : (truthy (c.get k) && !r) = true
  · simp [Collection.add, hex]
  · simp [Collection.add, hex, hfc]

/-- Witness for the amended C4 at a concrete collection: the rejected
insertion of a non-instance under a fresh key returns `null` and leaves
the (empty) store as it was. -/
theorem add_nonInstance_spec_witness :
    (Collection.mkNew (Option.some "C")).baseObject = Option.some "C" ∧
    instOf (JSVal.vNum 5) "C" = false ∧
    ((Collection.mkNew (Option.some "C")).add (JSVal.vStr "a") (JSVal.vNum 5)
        false).2 = Collection.mkNew (Option.some "C") ∧
    ((Collection.mkNew (Option.some "C")).add (JSVal.vStr "a") (JSVal.vNum 5)
        false).1 =
      (if truthy ((Collection.mkNew (Option.some "C")).get (JSVal.vStr "a")) &&
          !false then (Collection.mkNew (Option.some "C")).get (JSVal.vStr "a")
        else JSVal.vNull) :=
  ⟨by decide, by decide,
    (add_nonInstance_spec (Collection.mkNew (Option.some "C")) (JSVal.vStr "a")
      (JSVal.vNum 5) false "C" (by decide) (by decide)).1,
    (add_nonInstance_spec (Collection.mkNew (Option.some "C")) (JSVal.vStr "a")
      (JSVal.vNum 5) false "C" (by decide) (by decide)).2⟩

/-- Claim C5: in every state reachable from the constructor via the public
mutators `add`, `update`, `remove`, if `baseObject` is set then every
stored value is an instance of it. -/
theorem reachable_values_instOf (c : Collection) (b : String) (v : JSVal)
    (hr : Reachable c) (hb : c.baseObject = Option.some b)
    (hv : v ∈ c.valuesList) : instOf v b = true :=
  reachable_constraint_aux c hr b hb v hv

/-- Witness for C5 at a concrete reachable collection obtained by one
successful `add` on a freshly constructed constrained collection. -/
theorem reachable_values_instOf_witness :
    ((Collection.mkNew (Option.some "C")).add (JSVal.vStr "a")
        (JSVal.vObj ["C"]) false).2.baseObject = Option.some "C" ∧
    JSVal.vObj ["C"] ∈ ((Collection.mkNew (Option.some "C")).add
        (JSVal.vStr "a") (JSVal.vObj ["C"]) false).2.valuesList ∧
    instOf (JSVal.vObj ["C"]) "C" = true :=
  ⟨by decide, by decide,
    reachable_values_instOf
      ((Collection.mkNew (Option.some "C")).add (JSVal.vStr "a")
        (JSVal.vObj ["C"]) false).2
      "C" (JSVal.vObj ["C"])
      (Reachable.addStep (Collection.mkNew (Option.some "C")) (JSVal.vStr "a")
        (JSVal.vObj ["C"]) false (Reachable.init (Option.some "C")))
      (by decide) (by decide)⟩

/-- Claim C6: `update(key, value)` is definitionally `add(key, value,
replace = true)`: same result and same successor state. -/
theorem update_eq_add_true :
    ∀ (c : Collection) (k v : JSVal), c.update k v = c.add k v true :=
  fun _ _ _ => rfl

/-- Claim C7: `toString` dereferences `this.baseObject.name`
unconditionally: with `baseObject` set to a class named `b` it succeeds
and yields the exact display string, and with `baseObject = null` the
field access throws, so the operation is not total. -/
theorem toString_spec (c : Collection) :
    (∀ b : String, c.baseObject = Option.some b →
      c.toString = Except.ok ("[Collection<" ++ b ++ ">]")) ∧
    (c.baseObject = Option.none →
      ∃ msg : String, c.toString = Except.error msg) := by
  constructor
  · intro b hb
    simp [Collection.toString, hb]
  · intro hb
    refine ⟨"TypeError: Cannot read properties of null (reading name)", ?_⟩
    simp [Collection.toString, hb]

/-- Witness for C7 at concrete collections with and without a type
constraint. -/
theorem toString_spec_witness :
    (Collection.mkNew (Option.some "Command")).baseObject =
      Option.some "Command" ∧
    (Collection.mkNew (Option.some "Command")).toString =
      Except.ok ("[Collection<" ++ "Command" ++ ">]") ∧
    (Collection.mkNew Option.none).baseObject = Option.none ∧
    (∃ msg : String, (Collection.mkNew Option.none).toString =
      Except.error msg) :=
  ⟨rfl, (toString_spec (Collection.mkNew (Option.some "Command"))).1 "Command" rfl,
    rfl, (toString_spec (Collection.mkNew Option.none)).2 rfl⟩

/-- Claim C8: `some(f)` is true iff at least one stored value has a truthy
image under `f`, `every(f)` is true iff all stored values do, and on an
empty collection they return false and true respectively. -/
theorem some_every_spec (c : Collection) (f : JSVal → JSVal) :
    (c.some f = true ↔ ∃ v ∈ c.valuesList, truthy (f v) = true) ∧
    (c.every f = true ↔ ∀ v ∈ c.valuesList, truthy (f v) = true) ∧
    (c.store = [] → c.some f = false ∧ c.every f = true) := by
  refine ⟨?_, ?_, ?_⟩
  · simp [Collection.some, List.any_eq_true]
  · simp [Collection.every, List.all_eq_true]
  · intro h
    simp [Collection.some, Collection.every, Collection.valuesList, h]

/-- Witness for C8 on the concrete empty collection. -/
theorem some_every_spec_witness :
    (Collection.mkNew Option.none).store = [] ∧
    (Collection.mkNew Option.none).some (fun _ => JSVal.vBool true) = false ∧
    (Collection.mkNew Option.none).every (fun _ => JSVal.vBool true) = true :=
  ⟨rfl,
    ((some_every_spec (Collection.mkNew Option.none)
      (fun _ => JSVal.vBool true)).2.2 rfl).1,
    ((some_every_spec (Collection.mkNew Option.none)
      (fun _ => JSVal.vBool true)).2.2 rfl).2⟩

/-- Claim C9: `random()` returns `undefined` on an empty collection, and
on a non-empty collection returns a currently stored value for every
choice of random index in `[0, size)`. -/
theorem random_spec (c : Collection) (i : Nat) :
    (c.size = 0 → c.random i = JSVal.vUndefined) ∧
    (i < c.size → c.random i ∈ c.valuesList) := by
  constructor
  · intro h
    simp [Collection.random, h]
  · intro h
    have hne : ¬ c.size = 0 := by omega
    have hlen : i < c.valuesList.length := by
      simpa [Collection.valuesList, Collection.size] using h
    simp only [Collection.random, if_neg hne]
    rw [List.getD_eq_getElem c.valuesList JSVal.vUndefined hlen]
    exact List.getElem_mem hlen

/-- Witness for C9: the empty collection yields `undefined`; a singleton
collection at index 0 yields its stored value. -/
theorem random_spec_witness :
    (Collection.mkNew Option.none).size = 0 ∧
    (Collection.mkNew Option.none).random 0 = JSVal.vUndefined ∧
    0 < (⟨Option.none, [(JSVal.vStr "a", JSVal.vNum 7)]⟩ : Collection).size ∧
    (⟨Option.none, [(JSVal.vStr "a", JSVal.vNum 7)]⟩ : Collection).random 0 ∈
      (⟨Option.none, [(JSVal.vStr "a", JSVal.vNum 7)]⟩ : Collection).valuesList :=
  ⟨rfl, (random_spec (Collection.mkNew Option.none) 0).1 rfl, by decide,
    (random_spec (⟨Option.none, [(JSVal.vStr "a", JSVal.vNum 7)]⟩ : Collection)
      0).2 (by decide)⟩

/-- Claim C10: `baseObject` is fixed at construction and preserved by
every mutator, and the query helpers — embedded as pure functions of the
state, exactly as the source methods never assign to `this` — cannot
change the store. -/
theorem frame_conditions :
    ∀ (bo : Option String) (c : Collection) (k v : JSVal) (r : Bool),
      (Collection.mkNew bo).baseObject = bo ∧
      (c.add k v r).2.baseObject = c.baseObject ∧
      (c.update k v).2.baseObject = c.baseObject ∧
      (c.remove k).2.baseObject = c.baseObject :=
  fun _bo c k v r =>
    ⟨rfl, add_baseObject c k v r, update_baseObject c k v, remove_baseObject c k⟩

end AxonCore
